import Mathlib

/-!
# Verification of the VEDA exploratory-data-analysis helpers

This file gives a shallow embedding of the analytical core of `veda.py`
(missing-value summaries, distribution statistics, correlation matrices
with a significance mask) and proves the specified properties about it.

The source functions are thin orchestrations of pandas calls; the
embedding therefore models the semantics of the pandas operations that
the source invokes:

* a data frame is a list of named columns, each an ordered list of cells
  where a missing cell (`NaN` / `None`) is `Option.none`;
* `df.isna()` maps every cell to a boolean missingness flag;
* `Series.mean` / `Series.median` skip missing cells and are `NaN`
  (here: `none`) on an empty sample;
* `df.corr(numeric_only=True, method=m)` restricts to numeric columns
  and computes the pairwise correlation for every pair of columns over
  the rows where both cells are present (pairwise deletion,
  `min_periods = 1`).  `pearson` and `spearman` entries are `NaN` when a
  pairwise sample variance vanishes; for `kendall` pandas iterates over
  pairs itself, yields `NaN` when no valid observation exists, hard-codes
  `1.0` on the diagonal, and otherwise calls Kendall tau-b, which is
  `NaN` when either column has no two distinct paired values.  An
  unsupported method string raises (modelled as an `unknownMethod`
  error);
* `dropna(how="all", axis="columns")` and then `dropna(how="all",
  axis="index")` delete all-`NaN` columns and then all-`NaN` rows;
* `corr_matrix.abs() >= cutoff` compares elementwise, and a comparison
  against `NaN` is `False`.

Exact rationals stand for the float cell values; the correlation values
themselves live in `ℝ` because of the square root in the denominators
(pandas additionally clips pearson values into `[-1, 1]`, which is the
identity under exact arithmetic by Cauchy-Schwarz, so the clip is not
modelled).  Python mutation does not occur in the source (every pandas
call used returns a fresh object), which the embedding makes explicit by
having each `viz*Run` function return the caller table alongside the
computed artifacts.
-/

/-- A cell of a data frame: a numeric value, or the missing marker. -/
abbrev Cell := Option ℚ

/-- A named column: `numeric` records the dtype flag that
`corr(numeric_only=True)` selects on, `values` the ordered cells. -/
structure Column where
  name : String
  numeric : Bool
  values : List Cell
deriving DecidableEq, Inhabited

/-- A data frame is an ordered list of named columns. -/
abbrev DataFrame := List Column

/-- Errors surfaced by the viz helpers (pandas `ValueError` for an
unknown correlation method, `KeyError` for a missing column label, and
the explicit `NotImplementedError` of `viz_scatter`). -/
inductive VizError where
  | unknownMethod
  | keyError
  | notImplemented
deriving DecidableEq

/-! ## Missingness analyzer (`viz_missing`, `viz_missing_interactive`) -/

/-- Embedding of `df.isna()`: the same shape, every cell replaced by its
missingness flag. -/
def isnaDF (df : DataFrame) : List (String × List Bool) :=
  df.map (fun c => (c.name, c.values.map Option.isNone))

/-- Embedding of the pandas mean of a boolean column (`True = 1`), which
is `NaN` on an empty column. -/
def boolMean (bs : List Bool) : Option ℚ :=
  if bs.length = 0 then none else some ((bs.countP id : ℚ) / bs.length)

/-- The per-column missing fraction `df.isna().mean()` computed by
`viz_missing` (and `viz_missing_interactive`) before the `* 100`
rescaling for display. -/
def naFractions (df : DataFrame) : List (String × Option ℚ) :=
  (isnaDF df).map (fun p => (p.1, boolMean p.2))

/-- The percentage artifact `100 * df.isna().mean()` that is handed to
the bar-chart renderer. -/
def naPercents (df : DataFrame) : List (String × Option ℚ) :=
  (naFractions df).map (fun p => (p.1, p.2.map (fun q => 100 * q)))

/-- The sum of all per-column missing fractions (missing fractions of an
empty table of rows read as `0`). -/
def naFractionSum (df : DataFrame) : ℚ :=
  ((naFractions df).map (fun p => p.2.getD 0)).sum

/-- Run of `viz_missing`: computes the missingness mask and the
percentage artifact, and returns the caller table unchanged (no pandas
call in the source mutates `df`). -/
def vizMissingRun (df : DataFrame) :
    (List (String × List Bool) × List (String × Option ℚ)) × DataFrame :=
  ((isnaDF df, naPercents df), df)

/-! ## Distribution summarizer (`viz_distribution`) -/

/-- The non-missing cells of a column, in order. -/
def nonMissing (xs : List Cell) : List ℚ :=
  xs.filterMap id

/-- Mean of a list of rationals (sum over length). -/
def listMean (l : List ℚ) : ℚ :=
  l.sum / l.length

/-- Centered sum of squares of a list of rationals.  This vanishes
exactly when the sample variance does, so `listVar l ≠ 0` expresses
"nonzero variance". -/
def listVar (l : List ℚ) : ℚ :=
  (l.map (fun x => (x - listMean l) ^ 2)).sum

/-- Embedding of `Series.mean`: skip missing cells, `NaN` if none
remain. -/
def seriesMean (xs : List Cell) : Option ℚ :=
  if nonMissing xs = [] then none else some (listMean (nonMissing xs))

/-- Median of an already sorted list: the middle element for odd length,
the average of the two middle elements for even length, `NaN` when
empty. -/
def sortedMedian (l : List ℚ) : Option ℚ :=
  if l = [] then none
  else if l.length % 2 = 1 then some (l.getD (l.length / 2) 0)
  else some ((l.getD (l.length / 2 - 1) 0 + l.getD (l.length / 2) 0) / 2)

/-- Embedding of `Series.median`: skip missing cells, sort, take the
middle (pandas interpolates linearly at quantile `0.5`, i.e. averages
the two central order statistics for an even count). -/
def seriesMedian (xs : List Cell) : Option ℚ :=
  sortedMedian (List.insertionSort (· ≤ ·) (nonMissing xs))

/-- Column lookup `data[x_target]` by label. -/
def dfGetCol (df : DataFrame) (label : String) : Option Column :=
  df.find? (fun c => c.name = label)

/-- Run of `viz_distribution`: looks the target column up (a missing
label raises `KeyError`), computes the mean and median annotations, and
returns the caller table unchanged. -/
def vizDistributionRun (df : DataFrame) (target : String) :
    Except VizError (Option ℚ × Option ℚ) × DataFrame :=
  match dfGetCol df target with
  | none => (Except.error VizError.keyError, df)
  | some c => (Except.ok (seriesMean c.values, seriesMedian c.values), df)

/-- Modelled from the spec: the standard mean of a fully observed sample
(`§4.2: mean: standard definitions over non-missing values`). -/
def specMean (l : List ℚ) : ℚ :=
  l.sum / l.length

/-- Modelled from the spec: the standard median of a fully observed
sample (middle of the sorted values, averaging the two central ones for
an even count). -/
def specMedian (l : List ℚ) : Option ℚ :=
  sortedMedian (List.insertionSort (· ≤ ·) l)

/-! ## Correlation analyzer (`viz_correlations` and variants) -/

/-- The correlation methods accepted by `DataFrame.corr`. -/
inductive CorrMethod where
  | pearson
  | kendall
  | spearman
deriving DecidableEq

/-- The method strings accepted by `DataFrame.corr`. -/
def supportedMethods : List String :=
  ["pearson", "kendall", "spearman"]

/-- Embedding of the method validation of `DataFrame.corr`: any string
outside the supported set raises. -/
def parseMethod (s : String) : Option CorrMethod :=
  if s = "pearson" then some CorrMethod.pearson
  else if s = "kendall" then some CorrMethod.kendall
  else if s = "spearman" then some CorrMethod.spearman
  else none

/-- The numeric columns of a frame, in order: what
`corr(numeric_only=True)` retains. -/
def numericCols (df : DataFrame) : List Column :=
  df.filter (fun c => c.numeric)

/-- The cells of the `i`-th numeric column (an out-of-range index reads
as an empty column). -/
def colAt (df : DataFrame) (i : ℕ) : List Cell :=
  ((numericCols df).getD i default).values

/-- The column labels of the computed correlation matrix, on both axes. -/
def corrNames (df : DataFrame) : List String :=
  (numericCols df).map Column.name

/-- Pairwise deletion: the rows where both columns have a value,
as pairs. -/
def validPairs (xs ys : List Cell) : List (ℚ × ℚ) :=
  (xs.zip ys).filterMap (fun p => p.1.bind (fun a => p.2.map (fun b => (a, b))))

/-- Centered product sum of two equally long samples, the numerator of
the Pearson coefficient. -/
def covSum (xs ys : List ℚ) : ℚ :=
  ((xs.zip ys).map (fun p => (p.1 - listMean xs) * (p.2 - listMean ys))).sum

/-- Pearson correlation of two paired samples, as pandas `nancorr`
computes it: `NaN` when either centered sum of squares vanishes (which
covers the empty sample), otherwise the centered product sum over the
geometric mean of the two centered square sums. -/
noncomputable def pearsonOf (xs ys : List ℚ) : Option ℝ :=
  if listVar xs = 0 ∨ listVar ys = 0 then none
  else some ((covSum xs ys : ℝ) / Real.sqrt ((listVar xs : ℝ) * (listVar ys : ℝ)))

/-- Pearson correlation of a list of valid pairs. -/
noncomputable def pearsonR (ps : List (ℚ × ℚ)) : Option ℝ :=
  pearsonOf (ps.map Prod.fst) (ps.map Prod.snd)

/-- Average rank (1-based, ties averaged) of a value inside a sample:
`#(strictly smaller) + (#(equal) + 1) / 2`. -/
def avgRank (l : List ℚ) (v : ℚ) : ℚ :=
  (l.countP (fun x => x < v) : ℚ) + ((l.countP (fun x => x = v) : ℚ) + 1) / 2

/-- The average-rank transform of a sample, as pandas ranks a pairwise
masked column for Spearman. -/
def ranks (l : List ℚ) : List ℚ :=
  l.map (avgRank l)

/-- Spearman correlation of a list of valid pairs: Pearson on the
average ranks of the two masked samples (`nancorr_spearman`). -/
noncomputable def spearmanR (ps : List (ℚ × ℚ)) : Option ℝ :=
  pearsonOf (ranks (ps.map Prod.fst)) (ranks (ps.map Prod.snd))

/-- All unordered index pairs of a list, as ordered element pairs. -/
def pairsOf : List α → List (α × α)
  | [] => []
  | x :: xs => xs.map (fun y => (x, y)) ++ pairsOf xs

/-- Number of concordant index pairs of a paired sample. -/
def concordant (ps : List (ℚ × ℚ)) : ℕ :=
  (pairsOf ps).countP (fun q => decide (0 < (q.1.1 - q.2.1) * (q.1.2 - q.2.2)))

/-- Number of discordant index pairs of a paired sample. -/
def discordant (ps : List (ℚ × ℚ)) : ℕ :=
  (pairsOf ps).countP (fun q => decide ((q.1.1 - q.2.1) * (q.1.2 - q.2.2) < 0))

/-- Number of index pairs not tied in the first coordinate. -/
def untiedFst (ps : List (ℚ × ℚ)) : ℕ :=
  (pairsOf ps).countP (fun q => decide (q.1.1 ≠ q.2.1))

/-- Number of index pairs not tied in the second coordinate. -/
def untiedSnd (ps : List (ℚ × ℚ)) : ℕ :=
  (pairsOf ps).countP (fun q => decide (q.1.2 ≠ q.2.2))

/-- Kendall tau-b of a paired sample, as `scipy.stats.kendalltau`
computes it for pandas: `(concordant - discordant)` over
`sqrt(untied_x * untied_y)`, and `NaN` when either column of the sample
is fully tied (which covers samples of fewer than two pairs). -/
noncomputable def kendallTau (ps : List (ℚ × ℚ)) : Option ℝ :=
  if untiedFst ps = 0 ∨ untiedSnd ps = 0 then none
  else some (((concordant ps : ℝ) - (discordant ps : ℝ)) /
    Real.sqrt ((untiedFst ps : ℝ) * (untiedSnd ps : ℝ)))

/-- One entry of `df.corr`: the selected coefficient on the pairwise
valid rows.  For `kendall`, pandas loops over column pairs itself:
fewer valid observations than `min_periods = 1` gives `NaN`, next the
diagonal is hard-coded to `1.0`, and only then is tau-b called. -/
noncomputable def corrEntry (m : CorrMethod) (diag : Bool) (xs ys : List Cell) :
    Option ℝ :=
  match m with
  | CorrMethod.pearson => pearsonR (validPairs xs ys)
  | CorrMethod.spearman => spearmanR (validPairs xs ys)
  | CorrMethod.kendall =>
      if (validPairs xs ys).length = 0 then none
      else if diag then some 1
      else kendallTau (validPairs xs ys)

/-- The full correlation matrix `data.corr(numeric_only=True, method=m)`
of a frame, indexed by positions into its numeric columns (out-of-range
positions read as `NaN`, matching an empty pairwise sample). -/
noncomputable def corrM (df : DataFrame) (m : CorrMethod) (i j : ℕ) : Option ℝ :=
  corrEntry m (decide (i = j)) (colAt df i) (colAt df j)

/-- Column positions kept by `dropna(how="all", axis="columns")`: those
with at least one defined entry in the full matrix. -/
noncomputable def keptCols (df : DataFrame) (m : CorrMethod) : List ℕ :=
  (List.range (numericCols df).length).filter
    (fun j => (List.range (numericCols df).length).any
      (fun i => (corrM df m i j).isSome))

/-- Row positions kept by the subsequent `dropna(how="all",
axis="index")`: those with at least one defined entry among the kept
columns. -/
noncomputable def keptRows (df : DataFrame) (m : CorrMethod) : List ℕ :=
  (List.range (numericCols df).length).filter
    (fun i => (keptCols df m).any (fun j => (corrM df m i j).isSome))

open Classical in
/-- Boolean comparison of two reals, as the float comparison of the
chart pipeline. -/
noncomputable def realGe (x c : ℝ) : Bool :=
  decide (c ≤ x)

/-- Elementwise `>= cutoff` against a possibly missing value: pandas
comparisons against `NaN` yield `False`. -/
noncomputable def naCmpGe (e : Option ℝ) (c : ℝ) : Bool :=
  match e with
  | none => false
  | some v => realGe v c

/-- The artifacts of the correlation analyzer after the two `dropna`
calls: the kept row and column positions with their labels, the matrix
entries, and the significance mask `corr_matrix.abs() >= cutoff`. -/
structure CorrResult where
  rowIdx : List ℕ
  colIdx : List ℕ
  rowNames : List String
  colNames : List String
  entry : ℕ → ℕ → Option ℝ
  sigMask : ℕ → ℕ → Bool

/-- The correlation artifacts computed by `viz_correlations`,
`viz_clusters_correlations` and `viz_correlation_interactive` (their
analytical lines are identical). -/
noncomputable def buildCorr (df : DataFrame) (m : CorrMethod) (cutoff : ℝ) :
    CorrResult where
  rowIdx := keptRows df m
  colIdx := keptCols df m
  rowNames := (keptRows df m).map (fun i => (corrNames df).getD i "")
  colNames := (keptCols df m).map (fun j => (corrNames df).getD j "")
  entry := fun i j => corrM df m i j
  sigMask := fun i j => naCmpGe ((corrM df m i j).map (fun v => |v|)) cutoff

/-- Run of `viz_correlations`: validates the method string, computes the
correlation artifacts, and returns the caller table unchanged. -/
noncomputable def vizCorrelationsRun (df : DataFrame) (method : String) (cutoff : ℝ) :
    Except VizError CorrResult × DataFrame :=
  match parseMethod method with
  | none => (Except.error VizError.unknownMethod, df)
  | some m => (Except.ok (buildCorr df m cutoff), df)

/-- Run of `viz_clusters_correlations`: the identical analytical
computation ahead of the clustered rendering. -/
noncomputable def vizClustersCorrelationsRun (df : DataFrame) (method : String)
    (cutoff : ℝ) : Except VizError CorrResult × DataFrame :=
  match parseMethod method with
  | none => (Except.error VizError.unknownMethod, df)
  | some m => (Except.ok (buildCorr df m cutoff), df)

/-- Run of `viz_scatter`: the body is a bare `raise NotImplementedError`,
so no result is ever produced. -/
def vizScatterRun (df : DataFrame) : Except VizError Empty × DataFrame :=
  (Except.error VizError.notImplemented, df)

/-! ## Helper lemmas -/

theorem nonMissing_map_some (vs : List ℚ) : nonMissing (vs.map some) = vs := by
  simp [nonMissing, List.filterMap_map]

theorem zip_self (l : List ℚ) : l.zip l = l.map (fun a => (a, a)) := by
  induction l with
  | nil => rfl
  | cons x xs ih => simp [List.zip_cons_cons, ih]

theorem listVar_nonneg (l : List ℚ) : 0 ≤ listVar l := by
  refine List.sum_nonneg ?_
  intro x hx
  obtain ⟨y, _, rfl⟩ := List.mem_map.1 hx
  positivity

theorem covSum_self (l : List ℚ) : covSum l l = listVar l := by
  unfold covSum listVar
  rw [zip_self, List.map_map]
  refine congrArg List.sum (List.map_congr_left ?_)
  intro x _
  simp [sq]

theorem pearsonOf_self (l : List ℚ) (h : listVar l ≠ 0) : pearsonOf l l = some 1 := by
  unfold pearsonOf
  rw [if_neg (by simp [h])]
  have hV : (0 : ℝ) ≤ (listVar l : ℝ) := by exact_mod_cast listVar_nonneg l
  rw [covSum_self, Real.sqrt_mul_self hV]
  have : (listVar l : ℝ) ≠ 0 := by exact_mod_cast h
  rw [div_self this]

theorem pearsonOf_self_na (l : List ℚ) (h : listVar l = 0) : pearsonOf l l = none := by
  simp [pearsonOf, h]

theorem validPairs_swap (xs ys : List Cell) :
    validPairs ys xs = (validPairs xs ys).map Prod.swap := by
  unfold validPairs
  rw [← List.zip_swap, List.filterMap_map, List.map_filterMap]
  refine congrArg (fun f => List.filterMap f (xs.zip ys)) ?_
  funext p
  rcases p with ⟨a, b⟩
  cases a <;> cases b <;> rfl

theorem covSum_comm (xs ys : List ℚ) : covSum ys xs = covSum xs ys := by
  unfold covSum
  rw [← List.zip_swap, List.map_map]
  refine congrArg List.sum (List.map_congr_left ?_)
  intro p _
  simp [mul_comm]

theorem pearsonOf_comm (xs ys : List ℚ) : pearsonOf xs ys = pearsonOf ys xs := by
  unfold pearsonOf
  by_cases hx : listVar xs = 0
  · simp [hx]
  · by_cases hy : listVar ys = 0
    · simp [hy]
    · rw [if_neg (by tauto), if_neg (by tauto), covSum_comm, mul_comm]

theorem pearsonR_swap (ps : List (ℚ × ℚ)) :
    pearsonR (ps.map Prod.swap) = pearsonR ps := by
  unfold pearsonR
  rw [List.map_map, List.map_map]
  have h1 : Prod.fst ∘ Prod.swap = (Prod.snd : ℚ × ℚ → ℚ) := by
    funext p; rfl
  have h2 : Prod.snd ∘ Prod.swap = (Prod.fst : ℚ × ℚ → ℚ) := by
    funext p; rfl
  rw [h1, h2, pearsonOf_comm]

theorem spearmanR_swap (ps : List (ℚ × ℚ)) :
    spearmanR (ps.map Prod.swap) = spearmanR ps := by
  unfold spearmanR
  rw [List.map_map, List.map_map]
  have h1 : Prod.fst ∘ Prod.swap = (Prod.snd : ℚ × ℚ → ℚ) := by
    funext p; rfl
  have h2 : Prod.snd ∘ Prod.swap = (Prod.fst : ℚ × ℚ → ℚ) := by
    funext p; rfl
  rw [h1, h2, pearsonOf_comm]

theorem pairsOf_map (f : α → β) (l : List α) :
    pairsOf (l.map f) = (pairsOf l).map (Prod.map f f) := by
  induction l with
  | nil => rfl
  | cons x xs ih => simp [pairsOf, ih, List.map_map, Function.comp]

theorem concordant_swap (ps : List (ℚ × ℚ)) :
    concordant (ps.map Prod.swap) = concordant ps := by
  unfold concordant
  rw [pairsOf_map, List.countP_map]
  refine congrArg (List.countP · (pairsOf ps)) ?_
  funext q
  rcases q with ⟨⟨a, b⟩, ⟨c, d⟩⟩
  simp [Prod.map, mul_comm]

theorem discordant_swap (ps : List (ℚ × ℚ)) :
    discordant (ps.map Prod.swap) = discordant ps := by
  unfold discordant
  rw [pairsOf_map, List.countP_map]
  refine congrArg (List.countP · (pairsOf ps)) ?_
  funext q
  rcases q with ⟨⟨a, b⟩, ⟨c, d⟩⟩
  simp [Prod.map, mul_comm]

theorem untiedFst_swap (ps : List (ℚ × ℚ)) :
    untiedFst (ps.map Prod.swap) = untiedSnd ps := by
  unfold untiedFst untiedSnd
  rw [pairsOf_map, List.countP_map]
  refine congrArg (List.countP · (pairsOf ps)) ?_
  funext q
  rcases q with ⟨⟨a, b⟩, ⟨c, d⟩⟩
  simp [Prod.map]

theorem untiedSnd_swap (ps : List (ℚ × ℚ)) :
    untiedSnd (ps.map Prod.swap) = untiedFst ps := by
  unfold untiedFst untiedSnd
  rw [pairsOf_map, List.countP_map]
  refine congrArg (List.countP · (pairsOf ps)) ?_
  funext q
  rcases q with ⟨⟨a, b⟩, ⟨c, d⟩⟩
  simp [Prod.map]

theorem kendallTau_swap (ps : List (ℚ × ℚ)) :
    kendallTau (ps.map Prod.swap) = kendallTau ps := by
  unfold kendallTau
  rw [concordant_swap, discordant_swap, untiedFst_swap, untiedSnd_swap]
  by_cases hx : untiedFst ps = 0
  · simp [hx]
  · by_cases hy : untiedSnd ps = 0
    · simp [hy]
    · rw [if_neg (by tauto), if_neg (by tauto), mul_comm]

theorem corrEntry_symm (m : CorrMethod) (d : Bool) (xs ys : List Cell) :
    corrEntry m d ys xs = corrEntry m d xs ys := by
  cases m with
  | pearson =>
      unfold corrEntry
      rw [validPairs_swap, pearsonR_swap]
  | spearman =>
      unfold corrEntry
      rw [validPairs_swap, spearmanR_swap]
  | kendall =>
      unfold corrEntry
      rw [validPairs_swap, kendallTau_swap, List.length_map]

theorem corrM_symm (df : DataFrame) (m : CorrMethod) (i j : ℕ) :
    corrM df m i j = corrM df m j i := by
  unfold corrM
  rw [corrEntry_symm]
  have : decide (i = j) = decide (j = i) := by
    simp [eq_comm]
  rw [this]

theorem sum_sq_eq_zero (l : List ℚ) (m : ℚ) :
    (l.map (fun x => (x - m) ^ 2)).sum = 0 ↔ ∀ x ∈ l, x = m := by
  induction l with
  | nil => simp
  | cons a t ih =>
      have h2 : (0 : ℚ) ≤ (t.map (fun x => (x - m) ^ 2)).sum := by
        refine List.sum_nonneg ?_
        intro x hx
        obtain ⟨y, _, rfl⟩ := List.mem_map.1 hx
        positivity
      simp only [List.map_cons, List.sum_cons, List.forall_mem_cons]
      constructor
      · intro h
        have h1 : (0 : ℚ) ≤ (a - m) ^ 2 := sq_nonneg _
        have ha : (a - m) ^ 2 = 0 := by linarith
        exact ⟨sub_eq_zero.1 (sq_eq_zero_iff.1 ha), ih.1 (by linarith)⟩
      · rintro ⟨ha, ht⟩
        rw [ih.2 ht, ha]
        ring

theorem listVar_eq_zero (l : List ℚ) : listVar l = 0 ↔ ∀ x ∈ l, x = listMean l :=
  sum_sq_eq_zero l (listMean l)

theorem listMean_of_all_eq (l : List ℚ) (c : ℚ) (hne : l ≠ []) (h : ∀ x ∈ l, x = c) :
    listMean l = c := by
  have hrep : l = List.replicate l.length c := List.eq_replicate_iff.2 ⟨rfl, h⟩
  have hsum : l.sum = l.length • c := by
    rw [hrep]
    simp [List.sum_replicate]
  have hlen : (l.length : ℚ) ≠ 0 := by
    have : l.length ≠ 0 := by
      simpa [List.length_eq_zero] using hne
    exact_mod_cast this
  rw [listMean, hsum, nsmul_eq_mul, mul_comm, mul_div_assoc, div_self hlen, mul_one]

theorem listVar_of_all_eq (l : List ℚ) (c : ℚ) (h : ∀ x ∈ l, x = c) :
    listVar l = 0 := by
  rcases eq_or_ne l [] with hl | hl
  · simp [hl, listVar]
  · rw [listVar_eq_zero]
    intro x hx
    rw [h x hx, listMean_of_all_eq l c hl h]

theorem exists_ne_of_listVar_ne (l : List ℚ) (h : listVar l ≠ 0) :
    ∃ a ∈ l, ∃ b ∈ l, a ≠ b := by
  by_contra hc
  push_neg at hc
  rcases l with _ | ⟨x, t⟩
  · exact h (by simp [listVar])
  · refine h (listVar_of_all_eq _ x ?_)
    intro y hy
    exact hc y hy x (List.mem_cons_self x t)

theorem countP_lt_le (l : List ℚ) {a b : ℚ} (hab : a < b) :
    l.countP (fun x => x < a) + l.countP (fun x => x = a) ≤
      l.countP (fun x => x < b) := by
  induction l with
  | nil => simp
  | cons y t ih =>
      simp only [List.countP_cons]
      by_cases h2 : y = a
      · subst h2
        simp [lt_irrefl, hab]
        omega
      · by_cases h1 : y < a
        · have h3 : y < b := lt_trans h1 hab
          simp [h1, h2, h3]
          omega
        · by_cases h3 : y < b
          · simp [h1, h2, h3]
            omega
          · simp [h1, h2, h3]
            omega

theorem avgRank_lt (l : List ℚ) {a b : ℚ} (ha : a ∈ l) (hb : b ∈ l) (hab : a < b) :
    avgRank l a < avgRank l b := by
  unfold avgRank
  have h1 := countP_lt_le l hab
  have h2 : 0 < l.countP (fun x => x = a) := List.countP_pos_iff.2 ⟨a, ha, by simp⟩
  have h3 : 0 < l.countP (fun x => x = b) := List.countP_pos_iff.2 ⟨b, hb, by simp⟩
  have c1 : ((l.countP (fun x => x < a) : ℚ) + (l.countP (fun x => x = a) : ℚ)) ≤
      (l.countP (fun x => x < b) : ℚ) := by exact_mod_cast h1
  have c2 : (1 : ℚ) ≤ (l.countP (fun x => x = a) : ℚ) := by exact_mod_cast h2
  have c3 : (1 : ℚ) ≤ (l.countP (fun x => x = b) : ℚ) := by exact_mod_cast h3
  linarith

theorem avgRank_ne (l : List ℚ) {a b : ℚ} (ha : a ∈ l) (hb : b ∈ l) (hab : a ≠ b) :
    avgRank l a ≠ avgRank l b := by
  rcases lt_or_gt_of_ne hab with h | h
  · exact ne_of_lt (avgRank_lt l ha hb h)
  · exact ne_of_gt (avgRank_lt l hb ha h)

theorem ranks_var_ne (l : List ℚ) (h : listVar l ≠ 0) : listVar (ranks l) ≠ 0 := by
  obtain ⟨a, ha, b, hb, hab⟩ := exists_ne_of_listVar_ne l h
  intro hz
  have hall := (listVar_eq_zero (ranks l)).1 hz
  have h1 : avgRank l a ∈ ranks l := List.mem_map_of_mem _ ha
  have h2 : avgRank l b ∈ ranks l := List.mem_map_of_mem _ hb
  exact avgRank_ne l ha hb hab ((hall _ h1).trans (hall _ h2).symm)

theorem ranks_var_zero (l : List ℚ) (h : listVar l = 0) : listVar (ranks l) = 0 := by
  have hall := (listVar_eq_zero l).1 h
  refine listVar_of_all_eq (ranks l) (avgRank l (listMean l)) ?_
  intro r hr
  obtain ⟨y, hy, rfl⟩ := List.mem_map.1 hr
  rw [hall y hy]

theorem validPairs_self (xs : List Cell) :
    validPairs xs xs = (nonMissing xs).map (fun a => (a, a)) := by
  induction xs with
  | nil => rfl
  | cons x t ih =>
      cases x with
      | none =>
          simp only [validPairs, nonMissing, List.zip_cons_cons, List.filterMap_cons] at ih ⊢
          simpa using ih
      | some a =>
          simp only [validPairs, nonMissing, List.zip_cons_cons, List.filterMap_cons] at ih ⊢
          simpa using ih

theorem pearsonR_dup (l : List ℚ) :
    pearsonR (l.map (fun a => (a, a))) = pearsonOf l l := by
  unfold pearsonR
  rw [List.map_map, List.map_map]
  have h1 : (Prod.fst ∘ fun a : ℚ => (a, a)) = id := by funext p; rfl
  have h2 : (Prod.snd ∘ fun a : ℚ => (a, a)) = id := by funext p; rfl
  rw [h1, h2, List.map_id]

theorem spearmanR_dup (l : List ℚ) :
    spearmanR (l.map (fun a => (a, a))) = pearsonOf (ranks l) (ranks l) := by
  unfold spearmanR
  rw [List.map_map, List.map_map]
  have h1 : (Prod.fst ∘ fun a : ℚ => (a, a)) = id := by funext p; rfl
  have h2 : (Prod.snd ∘ fun a : ℚ => (a, a)) = id := by funext p; rfl
  rw [h1, h2, List.map_id]

theorem corrM_diag_one (df : DataFrame) (m : CorrMethod) (i : ℕ)
    (h : listVar (nonMissing (colAt df i)) ≠ 0) : corrM df m i i = some 1 := by
  have hd : decide (i = i) = true := by simp
  have hne : nonMissing (colAt df i) ≠ [] := by
    intro hnil
    exact h (by simp [hnil, listVar])
  cases m with
  | pearson =>
      unfold corrM corrEntry
      rw [validPairs_self, pearsonR_dup]
      exact pearsonOf_self _ h
  | spearman =>
      unfold corrM corrEntry
      rw [validPairs_self, spearmanR_dup]
      exact pearsonOf_self _ (ranks_var_ne _ h)
  | kendall =>
      unfold corrM corrEntry
      rw [validPairs_self, hd]
      rw [if_neg (by simpa [List.length_eq_zero] using hne)]
      simp

theorem corrM_diag_na (df : DataFrame) (m : CorrMethod) (i : ℕ)
    (hm : m = CorrMethod.pearson ∨ m = CorrMethod.spearman)
    (h : listVar (nonMissing (colAt df i)) = 0) : corrM df m i i = none := by
  rcases hm with rfl | rfl
  · unfold corrM corrEntry
    rw [validPairs_self, pearsonR_dup]
    exact pearsonOf_self_na _ h
  · unfold corrM corrEntry
    rw [validPairs_self, spearmanR_dup]
    exact pearsonOf_self_na _ (ranks_var_zero _ h)

theorem corrM_diag_kendall (df : DataFrame) (i : ℕ) :
    corrM df CorrMethod.kendall i i = none ↔ nonMissing (colAt df i) = [] := by
  unfold corrM corrEntry
  rw [validPairs_self]
  have hd : decide (i = i) = true := by simp
  rw [hd]
  by_cases hnil : nonMissing (colAt df i) = []
  · simp [hnil]
  · rw [if_neg (by simpa [List.length_eq_zero] using hnil)]
    simp [hnil]

theorem keptRows_eq_keptCols (df : DataFrame) (m : CorrMethod) :
    keptRows df m = keptCols df m := by
  unfold keptRows keptCols
  refine List.filter_congr ?_
  intro i hi
  rw [Bool.eq_iff_iff, List.any_eq_true, List.any_eq_true]
  constructor
  · rintro ⟨j, hj, hij⟩
    have hjr : j ∈ List.range (numericCols df).length := (List.mem_filter.1 hj).1
    refine ⟨j, hjr, ?_⟩
    rw [← corrM_symm]
    exact hij
  · rintro ⟨r, hr, hri⟩
    refine ⟨r, ?_, ?_⟩
    · refine List.mem_filter.2 ⟨hr, ?_⟩
      rw [List.any_eq_true]
      refine ⟨i, hi, ?_⟩
      rw [corrM_symm]
      exact hri
    · rw [corrM_symm]
      exact hri

theorem mem_keptRows_defined (df : DataFrame) (m : CorrMethod) (i : ℕ)
    (h : i ∈ keptRows df m) :
    ∃ j ∈ keptCols df m, (corrM df m i j).isSome = true := by
  have := (List.mem_filter.1 h).2
  rw [List.any_eq_true] at this
  obtain ⟨j, hj, hij⟩ := this
  exact ⟨j, hj, hij⟩

theorem mem_keptCols_defined (df : DataFrame) (m : CorrMethod) (j : ℕ)
    (h : j ∈ keptCols df m) :
    ∃ i ∈ keptRows df m, (corrM df m i j).isSome = true := by
  have hmem := List.mem_filter.1 h
  have hany := hmem.2
  rw [List.any_eq_true] at hany
  obtain ⟨i, hi, hij⟩ := hany
  refine ⟨i, ?_, hij⟩
  refine List.mem_filter.2 ⟨hi, ?_⟩
  rw [List.any_eq_true]
  exact ⟨j, h, hij⟩

/-- Index translation between the numeric columns of a frame and those
of the same frame with one extra numeric column spliced in at numeric
position `p`. -/
def shiftIdx (p k : ℕ) : ℕ :=
  if k < p then k else k + 1

theorem numericCols_append (df1 df2 : DataFrame) :
    numericCols (df1 ++ df2) = numericCols df1 ++ numericCols df2 :=
  List.filter_append df1 df2

theorem shiftIdx_inj_iff (p i j : ℕ) : (shiftIdx p i = shiftIdx p j) ↔ i = j := by
  unfold shiftIdx
  by_cases hi : i < p <;> by_cases hj : j < p <;> simp [hi, hj] <;> omega

theorem colAt_shift (pre post : DataFrame) (c : Column) (hc : c.numeric = true)
    (k : ℕ) :
    colAt (pre ++ post) k =
      colAt (pre ++ c :: post) (shiftIdx (numericCols pre).length k) := by
  unfold colAt shiftIdx
  rw [numericCols_append, numericCols_append]
  have hcons : numericCols (c :: post) = c :: numericCols post := by
    simp [numericCols, hc]
  rw [hcons]
  by_cases hk : k < (numericCols pre).length
  · rw [if_pos hk, List.getD_append _ _ _ _ hk, List.getD_append _ _ _ _ hk]
  · push_neg at hk
    rw [if_neg (by omega), List.getD_append_right _ _ _ _ hk,
      List.getD_append_right _ _ _ _ (by omega)]
    have hidx : k + 1 - (numericCols pre).length =
        (k - (numericCols pre).length) + 1 := by omega
    rw [hidx, List.getD_cons_succ]

theorem corrM_drop_col (pre post : DataFrame) (c : Column) (hc : c.numeric = true)
    (m : CorrMethod) (i j : ℕ) :
    corrM (pre ++ post) m i j =
      corrM (pre ++ c :: post) m (shiftIdx (numericCols pre).length i)
        (shiftIdx (numericCols pre).length j) := by
  unfold corrM
  rw [← colAt_shift pre post c hc, ← colAt_shift pre post c hc]
  have hd : decide (i = j) =
      decide (shiftIdx (numericCols pre).length i = shiftIdx (numericCols pre).length j) :=
    decide_eq_decide.2 (shiftIdx_inj_iff _ i j).symm
  rw [hd]

theorem naCmpGe_abs_iff (e : Option ℝ) (c : ℝ) :
    naCmpGe (e.map (fun v => |v|)) c = true ↔ ∃ v, e = some v ∧ c ≤ |v| := by
  cases e with
  | none => simp [naCmpGe]
  | some v => simp [naCmpGe, realGe]

theorem boolMean_isna (vs : List Cell) (n : ℕ) (hn : vs.length = n) (h0 : 0 < n) :
    boolMean (vs.map Option.isNone) = some ((vs.countP Option.isNone : ℚ) / n) := by
  unfold boolMean
  rw [List.length_map, hn, if_neg (by omega)]
  congr 2
  rw [List.countP_map]
  congr 1

theorem naFractions_eq (df : DataFrame) (n : ℕ) (h0 : 0 < n)
    (hlen : ∀ c ∈ df, c.values.length = n) :
    naFractions df =
      df.map (fun c => (c.name, some ((c.values.countP Option.isNone : ℚ) / n))) := by
  unfold naFractions isnaDF
  rw [List.map_map]
  refine List.map_congr_left ?_
  intro c hc
  simp only [Function.comp]
  rw [boolMean_isna c.values n (hlen c hc) h0]

theorem corrM_nil (df : DataFrame) (m : CorrMethod) (i j : ℕ)
    (h : colAt df i = []) : corrM df m i j = none := by
  unfold corrM
  rw [h]
  have hvp : validPairs [] (colAt df j) = [] := rfl
  cases m with
  | pearson => simp [corrEntry, hvp, pearsonR, pearsonOf, listVar]
  | spearman => simp [corrEntry, hvp, spearmanR, pearsonOf, ranks, listVar]
  | kendall => simp [corrEntry, hvp]

/-! ## Concrete frames used by the witnesses and by the counterexample -/

/-- A numeric column with three increasing values. -/
def colA : Column := ⟨"a", true, [some 1, some 2, some 3]⟩

/-- A second numeric column, proportional to `colA`. -/
def colB : Column := ⟨"b", true, [some 2, some 4, some 6]⟩

/-- An all-missing numeric column (pandas dtype of an all-`NaN` column is
float, hence numeric). -/
def colZ : Column := ⟨"z", true, [none, none, none]⟩

/-- A zero-variance numeric column with two observations. -/
def colK : Column := ⟨"k", true, [some 5, some 5]⟩

/-- A small fully numeric frame. -/
def dfW : DataFrame := [colA, colB]

/-- A frame holding only a zero-variance column. -/
def dfConst : DataFrame := [colK]

/-- The frame of the hand-computed example of the spec. -/
def dfC8 : DataFrame :=
  [⟨"x", true, [some 1, some 2, some 3, some 4, some 5]⟩]

/-! ## The claims -/

/-- C1: for every input table, correlation method, and cutoff, the
significance mask produced by the correlation analyzer is true at entry
`(i, j)` exactly when the matrix entry `(i, j)` is defined and its
absolute value is at least the cutoff; undefined (`NaN`) entries are
never marked significant. -/
theorem c1_sig_mask (df : DataFrame) (method : String) (cutoff : ℝ)
    (r : CorrResult) (dfOut : DataFrame)
    (h : vizCorrelationsRun df method cutoff = (Except.ok r, dfOut)) (i j : ℕ) :
    r.sigMask i j = true ↔ ∃ v, r.entry i j = some v ∧ cutoff ≤ |v| := by
  unfold vizCorrelationsRun at h
  cases hp : parseMethod method with
  | none =>
      rw [hp] at h
      exact absurd h (by simp)
  | some m =>
      rw [hp] at h
      have hr : buildCorr df m cutoff = r := by
        have := congrArg Prod.fst h
        simpa using this
      rw [← hr]
      simp only [buildCorr]
      exact naCmpGe_abs_iff _ _

/-- Witness for C1 at a concrete frame, method and cutoff. -/
theorem c1_sig_mask_witness :
    (buildCorr dfW CorrMethod.pearson (1 / 2)).sigMask 0 1 = true ↔
      ∃ v, (buildCorr dfW CorrMethod.pearson (1 / 2)).entry 0 1 = some v ∧
        (1 / 2 : ℝ) ≤ |v| :=
  c1_sig_mask dfW "pearson" (1 / 2) _ _ rfl 0 1

/-- C2: after the correlation matrix is computed, every all-undefined
row and column is removed, the removal is symmetric (the kept row and
column positions, hence labels, coincide, so the matrix stays square),
and no all-undefined row or column remains. -/
theorem c2_dropna (df : DataFrame) (m : CorrMethod) (cutoff : ℝ) :
    ((buildCorr df m cutoff).rowIdx = (buildCorr df m cutoff).colIdx ∧
      (buildCorr df m cutoff).rowNames = (buildCorr df m cutoff).colNames) ∧
    (∀ i, (∀ j, (buildCorr df m cutoff).entry i j = none) →
      i ∉ (buildCorr df m cutoff).rowIdx ∧ i ∉ (buildCorr df m cutoff).colIdx) ∧
    (∀ i ∈ (buildCorr df m cutoff).rowIdx, ∃ j ∈ (buildCorr df m cutoff).colIdx,
      ((buildCorr df m cutoff).entry i j).isSome = true) ∧
    (∀ j ∈ (buildCorr df m cutoff).colIdx, ∃ i ∈ (buildCorr df m cutoff).rowIdx,
      ((buildCorr df m cutoff).entry i j).isSome = true) := by
  simp only [buildCorr]
  refine ⟨⟨keptRows_eq_keptCols df m, by rw [keptRows_eq_keptCols df m]⟩, ?_, ?_, ?_⟩
  · intro i hnone
    constructor
    · intro hmem
      obtain ⟨j, _, hij⟩ := mem_keptRows_defined df m i hmem
      rw [hnone j] at hij
      exact absurd hij (by simp)
    · intro hmem
      obtain ⟨i2, _, hij⟩ := mem_keptCols_defined df m i hmem
      rw [corrM_symm, hnone i2] at hij
      exact absurd hij (by simp)
  · exact mem_keptRows_defined df m
  · exact mem_keptCols_defined df m

/-- Witness for C2: an out-of-range position has an all-undefined row
and is indeed dropped on both axes. -/
theorem c2_dropna_witness :
    2 ∉ (buildCorr dfW CorrMethod.pearson 0).rowIdx ∧
      2 ∉ (buildCorr dfW CorrMethod.pearson 0).colIdx :=
  (c2_dropna dfW CorrMethod.pearson 0).2.1 2
    (fun j => corrM_nil dfW CorrMethod.pearson 2 j rfl)

/-- C4: the computed correlation matrix is symmetric, at every pair of
positions (in particular at every retained pair). -/
theorem c4_symmetric (df : DataFrame) (m : CorrMethod) (cutoff : ℝ) (i j : ℕ) :
    (buildCorr df m cutoff).entry i j = (buildCorr df m cutoff).entry j i := by
  simp only [buildCorr]
  exact corrM_symm df m i j

/-- C5 (amended): the diagonal entry at a column with nonzero variance
is `1.0` under every method; with zero variance or zero non-missing
values it is undefined under `pearson` and `spearman`; under `kendall`
it is undefined exactly when the column has zero non-missing values
(pandas hard-codes the kendall diagonal to `1.0` whenever at least one
observation exists, zero variance included). -/
theorem c5_diagonal (df : DataFrame) (m : CorrMethod) (i : ℕ) :
    (listVar (nonMissing (colAt df i)) ≠ 0 → corrM df m i i = some 1) ∧
    ((m = CorrMethod.pearson ∨ m = CorrMethod.spearman) →
      listVar (nonMissing (colAt df i)) = 0 → corrM df m i i = none) ∧
    (m = CorrMethod.kendall →
      (corrM df m i i = none ↔ nonMissing (colAt df i) = [])) := by
  refine ⟨corrM_diag_one df m i, corrM_diag_na df m i, ?_⟩
  rintro rfl
  exact corrM_diag_kendall df i

/-- Witness for C5 at a concrete nonzero-variance column. -/
theorem c5_diagonal_witness : corrM dfW CorrMethod.pearson 0 0 = some 1 := by
  refine (c5_diagonal dfW CorrMethod.pearson 0).1 ?_
  have hcol : nonMissing (colAt dfW 0) = [1, 2, 3] := rfl
  rw [hcol]
  norm_num [listVar, listMean, List.sum_cons, List.sum_nil]

/-- Counterexample to C5 as stated: under the `kendall` method a
zero-variance column still gets the diagonal entry `1.0`, not an
undefined value. -/
theorem c5_diagonal_counterexample :
    listVar (nonMissing (colAt dfConst 0)) = 0 ∧
      corrM dfConst CorrMethod.kendall 0 0 = some 1 := by
  constructor
  · have hcol : nonMissing (colAt dfConst 0) = [5, 5] := rfl
    rw [hcol]
    norm_num [listVar, listMean, List.sum_cons, List.sum_nil]
  · rfl

/-- C6: splicing an all-missing numeric column into a table changes no
correlation value between the other columns (each entry only depends on
the two columns of its pair, so the matrices agree up to the index
shift past the inserted column). -/
theorem c6_drop_all_missing (pre post : DataFrame) (c : Column)
    (hc : c.numeric = true) (_hmiss : ∀ v ∈ c.values, v = none)
    (m : CorrMethod) (i j : ℕ) :
    corrM (pre ++ post) m i j =
      corrM (pre ++ c :: post) m (shiftIdx (numericCols pre).length i)
        (shiftIdx (numericCols pre).length j) :=
  corrM_drop_col pre post c hc m i j

/-- Witness for C6: appending a concrete all-missing column to a
one-column frame. -/
theorem c6_drop_all_missing_witness :
    corrM ([colA] ++ []) CorrMethod.pearson 0 0 =
      corrM ([colA] ++ colZ :: []) CorrMethod.pearson
        (shiftIdx (numericCols [colA]).length 0)
        (shiftIdx (numericCols [colA]).length 0) :=
  c6_drop_all_missing [colA] [] colZ rfl (by decide) CorrMethod.pearson 0 0

/-- C3: on a table with at least one row, the missing-value summary maps
each column name to the fraction of missing cells, each fraction lies in
`[0, 1]`, and the sum of all fractions lies in `[0, number of columns]`. -/
theorem c3_missing_fractions (df : DataFrame) (n : ℕ) (h0 : 0 < n)
    (hlen : ∀ c ∈ df, c.values.length = n) :
    naFractions df =
      df.map (fun c => (c.name, some ((c.values.countP Option.isNone : ℚ) / n))) ∧
    (∀ p ∈ naFractions df, ∃ q, p.2 = some q ∧ 0 ≤ q ∧ q ≤ 1) ∧
    0 ≤ naFractionSum df ∧ naFractionSum df ≤ (df.length : ℚ) := by
  have heq := naFractions_eq df n h0 hlen
  have hbound : ∀ c ∈ df, 0 ≤ ((c.values.countP Option.isNone : ℚ) / n) ∧
      ((c.values.countP Option.isNone : ℚ) / n) ≤ 1 := by
    intro c hc
    have hcount : c.values.countP Option.isNone ≤ n := by
      rw [← hlen c hc]
      exact List.countP_le_length _
    have hnq : (0 : ℚ) < n := by exact_mod_cast h0
    constructor
    · positivity
    · rw [div_le_one hnq]
      exact_mod_cast hcount
  refine ⟨heq, ?_, ?_, ?_⟩
  · intro p hp
    rw [heq] at hp
    obtain ⟨c, hc, rfl⟩ := List.mem_map.1 hp
    exact ⟨_, rfl, hbound c hc⟩
  · rw [naFractionSum, heq, List.map_map]
    refine List.sum_nonneg ?_
    intro x hx
    obtain ⟨c, hc, rfl⟩ := List.mem_map.1 hx
    simpa using (hbound c hc).1
  · rw [naFractionSum, heq, List.map_map]
    have hle := List.sum_le_card_nsmul
      (df.map ((fun p : String × Option ℚ => p.2.getD 0) ∘
        (fun c => (c.name, some ((c.values.countP Option.isNone : ℚ) / n))))) 1 ?_
    · rw [List.length_map] at hle
      simpa [nsmul_eq_mul] using hle
    · intro x hx
      obtain ⟨c, hc, rfl⟩ := List.mem_map.1 hx
      simpa using (hbound c hc).2

/-- Witness for C3 at a concrete three-row frame. -/
theorem c3_missing_fractions_witness :
    naFractions dfW =
      dfW.map (fun c => (c.name, some ((c.values.countP Option.isNone : ℚ) / 3))) :=
  (c3_missing_fractions dfW 3 (by decide) (by decide)).1

/-- C7: any method string outside the supported set (in particular
`"bogus"`) makes the correlation analyzer fail with the unknown-method
error, and no result is produced. -/
theorem c7_unknown_method (df : DataFrame) (method : String) (cutoff : ℝ)
    (h : method ∉ supportedMethods) :
    vizCorrelationsRun df method cutoff = (Except.error VizError.unknownMethod, df) := by
  have hmem : method ≠ "pearson" ∧ method ≠ "kendall" ∧ method ≠ "spearman" := by
    simpa [supportedMethods, not_or] using h
  have hp : parseMethod method = none := by
    unfold parseMethod
    rw [if_neg hmem.1, if_neg hmem.2.1, if_neg hmem.2.2]
  unfold vizCorrelationsRun
  rw [hp]

/-- Witness for C7 at the method string of the spec example. -/
theorem c7_unknown_method_witness :
    vizCorrelationsRun dfW "bogus" 0 = (Except.error VizError.unknownMethod, dfW) :=
  c7_unknown_method dfW "bogus" 0 (by decide)

/-- C8: for a column with no missing values the computed mean and median
are the standard statistical ones, and on the column `[1, 2, 3, 4, 5]`
both equal `3`. -/
theorem c8_mean_median :
    (∀ (df : DataFrame) (label : String) (c : Column) (vs : List ℚ),
      dfGetCol df label = some c → c.values = vs.map some → vs ≠ [] →
      vizDistributionRun df label =
        (Except.ok (some (specMean vs), specMedian vs), df)) ∧
    vizDistributionRun dfC8 "x" = (Except.ok (some 3, some 3), dfC8) := by
  have hgen : ∀ (df : DataFrame) (label : String) (c : Column) (vs : List ℚ),
      dfGetCol df label = some c → c.values = vs.map some → vs ≠ [] →
      vizDistributionRun df label =
        (Except.ok (some (specMean vs), specMedian vs), df) := by
    intro df label c vs hget hvals hne
    have hmean : seriesMean (vs.map some) = some (specMean vs) := by
      unfold seriesMean
      rw [nonMissing_map_some, if_neg hne]
      rfl
    have hmedian : seriesMedian (vs.map some) = specMedian vs := by
      unfold seriesMedian specMedian
      rw [nonMissing_map_some]
    unfold vizDistributionRun
    rw [hget]
    dsimp only
    rw [hvals, hmean, hmedian]
  refine ⟨hgen, ?_⟩
  have h5 := hgen dfC8 "x" ⟨"x", true, [some 1, some 2, some 3, some 4, some 5]⟩
    [1, 2, 3, 4, 5] rfl rfl (by decide)
  rw [h5]
  have hm : specMean [1, 2, 3, 4, 5] = 3 := by norm_num [specMean]
  have hmed : specMedian [1, 2, 3, 4, 5] = some 3 := by decide
  rw [hm, hmed]

/-- Witness for C8, discharging the lookup and no-missing hypotheses at
the hand-computed example column. -/
theorem c8_mean_median_witness :
    vizDistributionRun dfC8 "x" =
      (Except.ok (some (specMean [1, 2, 3, 4, 5]), specMedian [1, 2, 3, 4, 5]), dfC8) :=
  c8_mean_median.1 dfC8 "x" ⟨"x", true, [some 1, some 2, some 3, some 4, some 5]⟩
    [1, 2, 3, 4, 5] rfl rfl (by decide)

/-- C9: no analyzer mutates the caller's table: each run returns the
table exactly as it was passed in. -/
theorem c9_no_mutation (df : DataFrame) (target method : String) (cutoff : ℝ) :
    (vizMissingRun df).2 = df ∧ (vizDistributionRun df target).2 = df ∧
      (vizCorrelationsRun df method cutoff).2 = df := by
  refine ⟨rfl, ?_, ?_⟩
  · unfold vizDistributionRun
    cases dfGetCol df target <;> rfl
  · unfold vizCorrelationsRun
    cases parseMethod method <;> rfl

/-- C10: `viz_scatter` fails unconditionally with the not-implemented
error and never returns a result. -/
theorem c10_scatter_not_impl (df : DataFrame) :
    vizScatterRun df = (Except.error VizError.notImplemented, df) :=
  rfl
